import Mathlib

/-!
Verification of the contacto hybrid search engine

A shallow embedding of the hybrid-search subsystem of the contacto
repository:

* `VectorStore` (`apps/contacto-app/src/services/hybridSearchService.ts`),
* `KeywordSearchService` (`keywordSearchService.ts`, simple-search path),
* `HybridSearchService` (fusion coordinator).

Modelling conventions:

* JavaScript strings are modelled as `List Char` (`Str`); case folding is
  ASCII (`Char.toLower`), which agrees with SQLite's `LIKE` folding and with
  JavaScript `toLowerCase` on the ASCII inputs the claims exercise.
* JavaScript numbers are modelled as exact rationals `ℚ`.  `Math.sqrt` has no
  exact rational counterpart, so every definition that normalizes a vector
  takes the square-root function as an explicit parameter `f : ℚ → ℚ`;
  theorems constrain `f` at the points where it is applied
  (e.g. `f s * f s = s`), which is what `Math.sqrt` satisfies on perfect
  squares, or instantiate it at inputs where it is never applied.
* Fallible collaborators (embedding provider, SQLite, contact directory) are
  modelled with `Except Unit`; a thrown exception is `.error ()`.
* `Array.prototype.sort` (stable since ES2019) is modelled by the stable
  insertion sort `jsStableSort`; SQLite `ORDER BY` is modelled by the same
  stable sort (the claims proved about ordered SQL results are
  membership-based, so the tie order SQLite leaves unspecified is
  irrelevant to them).
* SQLite `LIKE` is modelled by `likeMatch`, including `%`/`_` wildcard
  semantics and ASCII case-insensitivity (the JS code interpolates the raw
  search term into the pattern without escaping).
-/

/-- JavaScript strings, modelled as lists of characters. -/
abbrev Str := List Char

/-- ASCII-lowercase a string (`String.prototype.toLowerCase` on ASCII input). -/
def toLowerStr (s : Str) : Str := s.map Char.toLower

/-- `String.prototype.includes`: substring containment. -/
def jsIncludes : Str → Str → Bool
  | [], sub => sub.isEmpty
  | c :: t, sub => sub.isPrefixOf (c :: t) || jsIncludes t sub

/-- `String.prototype.trim`: strip whitespace from both ends. -/
def jsTrim (s : Str) : Str :=
  ((s.dropWhile Char.isWhitespace).reverse.dropWhile Char.isWhitespace).reverse

/-- Maximal non-whitespace runs of a string (helper for `jsSplitWs`). -/
def wsWordsAux : Str → Str → List Str
  | [], cur => if cur.isEmpty then [] else [cur.reverse]
  | c :: rest, cur =>
    if c.isWhitespace then
      if cur.isEmpty then wsWordsAux rest [] else cur.reverse :: wsWordsAux rest []
    else wsWordsAux rest (c :: cur)

/-- `str.split(/\s+/)`: split on whitespace runs.  A leading (resp. trailing)
whitespace run contributes a leading (resp. trailing) empty piece, and the
empty string yields `[""]`, exactly as in JavaScript. -/
def jsSplitWs (s : Str) : List Str :=
  match s with
  | [] => [[]]
  | c :: rest =>
    (if c.isWhitespace then [([] : Str)] else []) ++ wsWordsAux (c :: rest) [] ++
      (if ((c :: rest).getLastD c).isWhitespace then [([] : Str)] else [])

/-- SQLite `LIKE`: `%` matches any sequence, `_` any single character, other
characters match ASCII case-insensitively; the pattern must cover the whole
text. -/
def likeMatch : Str → Str → Bool
  | [], t => t.isEmpty
  | c :: ps, t =>
    if c == '%' then t.tails.any (fun s => likeMatch ps s)
    else
      match t with
      | [] => false
      | d :: ts => (c == '_' || c.toLower == d.toLower) && likeMatch ps ts

/-- `field LIKE '%term%'` as issued by the keyword search SQL. -/
def likeContains (field term : Str) : Bool :=
  likeMatch ('%' :: (term ++ ['%'])) field

/-- `LIKE` on a nullable column: `NULL LIKE p` is not true. -/
def optLikeContains (field : Option Str) (term : Str) : Bool :=
  match field with
  | none => false
  | some f => likeContains f term

/-- JavaScript truthiness of a nullable string (`null`, `undefined` and `""`
are falsy). -/
def jsTruthy : Option Str → Bool
  | none => false
  | some s => !s.isEmpty

/-- SQLite `BINARY` collation (code-point order) as a Boolean `≤`, used to
model `ORDER BY name ASC`. -/
def strLeB : Str → Str → Bool
  | [], _ => true
  | _ :: _, [] => false
  | a :: as, b :: bs =>
    if a = b then strLeB as bs else decide (a < b)

/-- Stable insertion used by `jsStableSort`: `x` is placed after every
already-placed element `y` with `le y x` (so equal elements keep their
original relative order, as ES2019 requires of `Array.prototype.sort`). -/
def insertStable (le : α → α → Bool) (x : α) : List α → List α
  | [] => [x]
  | y :: ys => if le y x then y :: insertStable le x ys else x :: y :: ys

/-- Stable sort modelling `Array.prototype.sort(cmp)`; `le a b` means
`cmp(a, b) ≤ 0`, i.e. `a` may come before `b`. -/
def jsStableSort (le : α → α → Bool) (l : List α) : List α :=
  l.foldl (fun acc x => insertStable le x acc) []

theorem mem_insertStable (le : α → α → Bool) (x : α) (l : List α) (z : α) :
    z ∈ insertStable le x l ↔ z = x ∨ z ∈ l := by
  induction l with
  | nil => simp [insertStable]
  | cons y ys ih =>
    simp only [insertStable]
    by_cases h : le y x = true
    · simp only [if_pos h, List.mem_cons, ih]
      tauto
    · simp only [if_neg h, List.mem_cons]

theorem insertStable_perm (le : α → α → Bool) (x : α) (l : List α) :
    (insertStable le x l).Perm (x :: l) := by
  induction l with
  | nil => simp [insertStable]
  | cons y ys ih =>
    simp only [insertStable]
    by_cases h : le y x = true
    · rw [if_pos h]
      exact (ih.cons y).trans (List.Perm.swap x y ys)
    · rw [if_neg h]

theorem jsStableSort_perm (le : α → α → Bool) (l : List α) :
    (jsStableSort le l).Perm l := by
  suffices h : ∀ acc : List α,
      (l.foldl (fun acc x => insertStable le x acc) acc).Perm (acc ++ l) by
    simpa [jsStableSort] using h []
  induction l with
  | nil => intro acc; simp
  | cons x xs ih =>
    intro acc
    have h1 := ih (insertStable le x acc)
    have h2 : (insertStable le x acc ++ xs).Perm ((x :: acc) ++ xs) :=
      (insertStable_perm le x acc).append_right xs
    have h3 : ((x :: acc) ++ xs).Perm (acc ++ x :: xs) :=
      (@List.perm_middle _ x acc xs).symm
    exact (h1.trans h2).trans h3

theorem mem_jsStableSort (le : α → α → Bool) (l : List α) (z : α) :
    z ∈ jsStableSort le l ↔ z ∈ l :=
  (jsStableSort_perm le l).mem_iff

/-- Inserting into a sorted list keeps it sorted, provided `le` is total and
transitive. -/
theorem pairwise_insertStable (le : α → α → Bool)
    (total : ∀ a b, le a b = true ∨ le b a = true)
    (trans : ∀ a b c, le a b = true → le b c = true → le a c = true)
    (x : α) (l : List α)
    (h : l.Pairwise (fun a b => le a b = true)) :
    (insertStable le x l).Pairwise (fun a b => le a b = true) := by
  induction l with
  | nil => simp [insertStable]
  | cons y ys ih =>
    rcases List.pairwise_cons.mp h with ⟨hy, hys⟩
    simp only [insertStable]
    by_cases hxy : le y x = true
    · simp only [hxy, if_pos]
      refine List.pairwise_cons.mpr ⟨?_, ih hys⟩
      intro z hz
      rcases (mem_insertStable le x ys z).mp hz with rfl | hz
      · exact hxy
      · exact hy z hz
    · simp only [hxy, if_neg, Bool.not_eq_true]
      have hxy' : le x y = true := (total x y).resolve_right hxy
      refine List.pairwise_cons.mpr ⟨?_, h⟩
      intro z hz
      rcases List.mem_cons.mp hz with rfl | hz
      · exact hxy'
      · exact trans x y z hxy' (hy z hz)

/-- `jsStableSort` sorts with respect to a total transitive Boolean
relation. -/
theorem pairwise_jsStableSort (le : α → α → Bool)
    (total : ∀ a b, le a b = true ∨ le b a = true)
    (trans : ∀ a b c, le a b = true → le b c = true → le a c = true)
    (l : List α) :
    (jsStableSort le l).Pairwise (fun a b => le a b = true) := by
  suffices h : ∀ acc : List α, acc.Pairwise (fun a b => le a b = true) →
      (l.foldl (fun acc x => insertStable le x acc) acc).Pairwise
        (fun a b => le a b = true) by
    exact h [] (by simp)
  induction l with
  | nil => intro acc hacc; simpa using hacc
  | cons x xs ih =>
    intro acc hacc
    exact ih _ (pairwise_insertStable le total trans x acc hacc)

/-- The relation "sorted by score descending, ties in insertion order" on
`(index, score)` pairs. -/
def descLexR (a b : ℕ × ℚ) : Prop :=
  b.2 ≤ a.2 ∧ (a.2 = b.2 → a.1 < b.1)

/-- Inserting a pair whose index exceeds every index already placed keeps the
descending-with-stable-ties invariant. -/
theorem insertStable_pairwise_descLexR (x : ℕ × ℚ) (acc : List (ℕ × ℚ))
    (hacc : acc.Pairwise descLexR) (hlt : ∀ y ∈ acc, y.1 < x.1) :
    (insertStable (fun a b => decide (b.2 ≤ a.2)) x acc).Pairwise descLexR := by
  induction acc with
  | nil => simp [insertStable]
  | cons y ys ih =>
    rcases List.pairwise_cons.mp hacc with ⟨hy, hys⟩
    simp only [insertStable]
    by_cases h : x.2 ≤ y.2
    · rw [if_pos (by simpa using h)]
      refine List.pairwise_cons.mpr ⟨?_, ih hys (fun z hz => hlt z (List.mem_cons_of_mem y hz))⟩
      intro z hz
      rcases (mem_insertStable _ x ys z).mp hz with rfl | hz
      · exact ⟨h, fun _ => hlt y (List.mem_cons_self y ys)⟩
      · exact hy z hz
    · rw [if_neg (by simpa using h)]
      push_neg at h
      refine List.pairwise_cons.mpr ⟨?_, hacc⟩
      intro z hz
      rcases List.mem_cons.mp hz with rfl | hz
      · exact ⟨le_of_lt h, fun he => absurd (he ▸ h) (lt_irrefl _)⟩
      · have hyz := hy z hz
        exact ⟨le_trans hyz.1 (le_of_lt h),
          fun he => absurd (he ▸ lt_of_le_of_lt hyz.1 h) (lt_irrefl _)⟩

/-- Sorting `(index, score)` pairs with strictly increasing indices by
descending score with the stable sort yields a list sorted descending with
ties in index (= insertion) order: the stability property of the vector
store's ranking. -/
theorem jsStableSort_desc_lex_aux :
    ∀ l acc : List (ℕ × ℚ), acc.Pairwise descLexR →
      (∀ y ∈ acc, ∀ x ∈ l, y.1 < x.1) → l.Pairwise (fun a b => a.1 < b.1) →
      (l.foldl (fun acc x => insertStable (fun a b => decide (b.2 ≤ a.2)) x acc)
        acc).Pairwise descLexR := by
  intro l
  induction l with
  | nil => intro acc hacc _ _; simpa using hacc
  | cons x xs ih =>
    intro acc hacc hsep hsort
    rcases List.pairwise_cons.mp hsort with ⟨hx, hxs⟩
    have hacc' := insertStable_pairwise_descLexR x acc hacc
      (fun y hy => hsep y hy x (List.mem_cons_self x xs))
    have hsep' : ∀ y ∈ insertStable (fun a b => decide (b.2 ≤ a.2)) x acc,
        ∀ z ∈ xs, y.1 < z.1 := by
      intro y hy z hz
      rcases (mem_insertStable _ x acc y).mp hy with rfl | hy
      · exact hx z hz
      · exact hsep y hy z (List.mem_cons_of_mem x hz)
    exact ih _ hacc' hsep' hxs

theorem jsStableSort_desc_lex (l : List (ℕ × ℚ))
    (hl : l.Pairwise (fun a b => a.1 < b.1)) :
    (jsStableSort (fun a b => decide (b.2 ≤ a.2)) l).Pairwise descLexR :=
  jsStableSort_desc_lex_aux l [] (by simp) (by simp) hl

/-- Spec-side ranking relation on `(index, score)` pairs: "top `k` by
similarity, descending, ties broken by stable insertion order". -/
def specLexLe (a b : ℕ × ℚ) : Prop :=
  b.2 < a.2 ∨ (a.2 = b.2 ∧ a.1 ≤ b.1)

theorem specLexLe_total (a b : ℕ × ℚ) : specLexLe a b ∨ specLexLe b a := by
  rcases lt_trichotomy a.2 b.2 with h | h | h
  · exact Or.inr (Or.inl h)
  · rcases Nat.le_total a.1 b.1 with h1 | h1
    · exact Or.inl (Or.inr ⟨h, h1⟩)
    · exact Or.inr (Or.inr ⟨h.symm, h1⟩)
  · exact Or.inl (Or.inl h)

theorem specLexLe_trans (a b c : ℕ × ℚ) :
    specLexLe a b → specLexLe b c → specLexLe a c := by
  intro hab hbc
  rcases hab with h1 | ⟨he1, hi1⟩
  · rcases hbc with h2 | ⟨he2, _⟩
    · exact Or.inl (lt_trans h2 h1)
    · exact Or.inl (he2 ▸ h1)
  · rcases hbc with h2 | ⟨he2, hi2⟩
    · exact Or.inl (he1 ▸ h2)
    · exact Or.inr ⟨he1.trans he2, le_trans hi1 hi2⟩

theorem specLexLe_antisymm (a b : ℕ × ℚ) :
    specLexLe a b → specLexLe b a → a = b := by
  intro hab hba
  rcases hab with h1 | ⟨he1, hi1⟩
  · rcases hba with h2 | ⟨he2, _⟩
    · exact absurd h1 (lt_asymm h2)
    · exact absurd he2.symm (ne_of_gt h1)
  · rcases hba with h2 | ⟨he2, hi2⟩
    · exact absurd he1 (ne_of_lt h2)
    · exact Prod.ext (Nat.le_antisymm hi1 hi2) he1

instance (a b : ℕ × ℚ) : Decidable (specLexLe a b) := by
  unfold specLexLe
  infer_instance

/-- Two stable sorts agree: sorting index-score pairs (with strictly
increasing indices) by descending score alone equals sorting by the
spec-side ranking relation "descending score, ties by insertion index". -/
theorem jsStableSort_desc_eq_lexSort (l : List (ℕ × ℚ))
    (hl : l.Pairwise (fun a b => a.1 < b.1)) :
    jsStableSort (fun a b => decide (b.2 ≤ a.2)) l =
      jsStableSort (fun a b => decide (specLexLe a b)) l := by
  have s1 : (jsStableSort (fun a b => decide (b.2 ≤ a.2)) l).Pairwise specLexLe := by
    refine (jsStableSort_desc_lex l hl).imp ?_
    intro a b h
    rcases eq_or_lt_of_le h.1 with he | hlt
    · exact Or.inr ⟨he.symm, (h.2 he.symm).le⟩
    · exact Or.inl hlt
  have s2 : (jsStableSort (fun a b => decide (specLexLe a b)) l).Pairwise specLexLe := by
    have := pairwise_jsStableSort (fun a b => decide (specLexLe a b))
      (by intro a b
          rcases specLexLe_total a b with h | h
          · exact Or.inl (by simpa using h)
          · exact Or.inr (by simpa using h))
      (by intro a b c hab hbc
          simp only [decide_eq_true_eq] at *
          exact specLexLe_trans a b c hab hbc) l
    exact this.imp (fun h => of_decide_eq_true h)
  exact @List.eq_of_perm_of_sorted _ specLexLe ⟨specLexLe_antisymm⟩ _ _
    ((jsStableSort_perm _ l).trans (jsStableSort_perm _ l).symm) s1 s2

/-! ## Data model (hybridSearchService.ts) -/

/-- `SearchConfig` (weights are JS numbers, modelled as `ℚ`). -/
structure SearchConfig where
  semanticWeight : ℚ
  keywordWeight : ℚ
  maxResults : ℕ
deriving DecidableEq

/-- `DEFAULT_SEARCH_CONFIG`. -/
def DEFAULT_SEARCH_CONFIG : SearchConfig :=
  { semanticWeight := 7/10, keywordWeight := 6/10, maxResults := 25 }

/-- `SearchResult` (unified result of the coordinator). -/
structure SearchResult where
  contactId : Str
  name : Str
  score : ℚ
  matchedField : Option Str
  snippet : Option Str
deriving DecidableEq

/-- `SemanticSearchResult`; the vector store only ever populates
`contactId` and `score`. -/
structure SemanticSearchResult where
  contactId : Str
  score : ℚ
  matchedField : Option Str
  snippet : Option Str
deriving DecidableEq

/-- `KeywordSearchResult` as produced by `performSimpleSearch`. -/
structure KeywordSearchResult where
  contactId : Str
  score : ℚ
  matchedField : Str
  snippet : Option Str
  matchCount : ℕ
deriving DecidableEq

/-- `VectorDocument`; `embedding` is `Option` because the TS code guards
against documents arriving without one (`!doc.embedding`). -/
structure VectorDocument where
  id : Str
  embedding : Option (List ℚ)
deriving DecidableEq

/-- The `VectorStore` state: insertion-ordered documents plus the configured
dimension (`null` before first configuration). -/
structure VectorStore where
  documents : List VectorDocument
  dimension : Option ℕ
deriving DecidableEq

/-- The store state right after `initialize()`: empty, dimension 1536. -/
def VectorStore.fresh : VectorStore := { documents := [], dimension := some 1536 }

/-- `vector.reduce((sum, v) => sum + v * v, 0)`. -/
def sumSquares (v : List ℚ) : ℚ := v.foldl (fun acc x => acc + x * x) 0

/-- `normalizeVector`, with `Math.sqrt` passed explicitly as `f`. -/
def normalizeVector (f : ℚ → ℚ) (v : List ℚ) : List ℚ :=
  let norm := f (sumSquares v)
  if norm = 0 then v else v.map (fun x => x / norm)

/-- `cosineSimilarity`: a plain dot product (the code does **not** normalize
its arguments). -/
def cosineSimilarity (a b : List ℚ) : ℚ :=
  (List.zipWith (fun x y => x * y) a b).foldl (fun acc x => acc + x) 0

/-- Error message of `addDocument` on a dimension mismatch. -/
def embedDimMismatchMsg (expected got : ℕ) : Str :=
  "Embedding dimension mismatch: expected ".toList ++ (toString expected).toList
    ++ ", got ".toList ++ (toString got).toList

/-- Error message of `search` on a dimension mismatch. -/
def queryDimMismatchMsg (expected : Option ℕ) (got : ℕ) : Str :=
  "Query embedding dimension mismatch: expected ".toList
    ++ (match expected with
        | none => "null".toList
        | some d => (toString d).toList)
    ++ ", got ".toList ++ (toString got).toList

/-- `VectorStore.addDocument`.  `.error` models a thrown exception, which
leaves the caller's store untouched (see `VectorStore.addDocumentState`). -/
def VectorStore.addDocument (s : VectorStore) (doc : VectorDocument) :
    Except Str VectorStore :=
  match doc.embedding with
  | none => .error "TypeError: cannot read length of undefined".toList
  | some e =>
    match s.dimension with
    | none => .ok { documents := s.documents ++ [doc], dimension := some e.length }
    | some d =>
      if e.length ≠ d then .error (embedDimMismatchMsg d e.length)
      else .ok { s with documents := s.documents ++ [doc] }

/-- The store state after an `addDocument` call, whether or not it threw
(the code throws before mutating `documents`). -/
def VectorStore.addDocumentState (s : VectorStore) (doc : VectorDocument) :
    VectorStore :=
  match s.addDocument doc with
  | .ok s' => s'
  | .error _ => s

/-- The filter predicate of `addDocuments`: documents without an embedding,
or whose embedding length differs from the configured dimension, are
skipped (a `null` dimension never equals a JS number, so everything is
skipped then). -/
def validForBatch (s : VectorStore) (doc : VectorDocument) : Bool :=
  match doc.embedding, s.dimension with
  | some e, some d => e.length == d
  | _, _ => false

/-- `VectorStore.addDocuments`: filters invalid documents, appends the rest;
never throws. -/
def VectorStore.addDocuments (s : VectorStore) (docs : List VectorDocument) :
    VectorStore :=
  { s with documents := s.documents ++ docs.filter (validForBatch s) }

/-- The `{index, similarity}` list built inside `VectorStore.search`
(similarity 0 for documents without an embedding). -/
def similarityList (f : ℚ → ℚ) (s : VectorStore) (q : List ℚ) : List (ℕ × ℚ) :=
  (s.documents.map (fun doc =>
    match doc.embedding with
    | none => 0
    | some e => cosineSimilarity (normalizeVector f q) e)).enum

/-- `VectorStore.search`: empty-index check, dimension check, similarity
ranking (descending, stable), top `k`. -/
def VectorStore.search (f : ℚ → ℚ) (s : VectorStore) (queryEmbedding : List ℚ)
    (k : ℕ) : Except Str (List SemanticSearchResult) :=
  if s.documents.length = 0 then .ok []
  else if some queryEmbedding.length ≠ s.dimension then
    .error (queryDimMismatchMsg s.dimension queryEmbedding.length)
  else
    .ok (((jsStableSort (fun a b => decide (b.2 ≤ a.2))
            (similarityList f s queryEmbedding)).take k).map (fun p =>
      { contactId := (s.documents.getD p.1 ⟨[], none⟩).id, score := p.2,
        matchedField := none, snippet := none }))

/-- Modelled from the spec: "returns the top `k` by similarity, descending,
ties broken by stable insertion order" — the spec-side ranking of the
index/similarity pairs, to be compared with the code's ranking. -/
def specVectorRank (sims : List (ℕ × ℚ)) : List (ℕ × ℚ) :=
  jsStableSort (fun a b => decide (specLexLe a b)) sims

theorem pairwise_fst_lt_enum (l : List α) :
    (l.enum).Pairwise (fun a b : ℕ × α => a.1 < b.1) := by
  rw [List.pairwise_iff_getElem]
  intro i j hi hj hij
  rw [List.getElem_enum, List.getElem_enum]
  exact hij

/-! ## Keyword search (keywordSearchService.ts, simple-search path) -/

/-- A row of the `contacts` table as selected by the keyword search SQL
(`id, name, email, phone, tags`); `tags` holds the raw JSON text stored in
the column.  `name` is `NOT NULL`, the other columns are nullable. -/
structure ContactRow where
  id : Str
  name : Str
  email : Option Str
  phone : Option Str
  tags : Option Str
deriving DecidableEq

/-- `WHERE name LIKE ? OR email LIKE ? OR phone LIKE ? OR tags LIKE ?`
with pattern `%firstTerm%`. -/
def rowMatchesFirstTerm (row : ContactRow) (t0 : Str) : Bool :=
  likeContains row.name t0 || optLikeContains row.email t0 ||
    optLikeContains row.phone t0 || optLikeContains row.tags t0

/-- The `ORDER BY CASE ... END` key of the simple-search SQL. -/
def rowOrderKey (row : ContactRow) (t0 : Str) : ℕ :=
  if likeContains row.name t0 then 1
  else if optLikeContains row.email t0 then 2
  else if optLikeContains row.phone t0 then 3
  else if optLikeContains row.tags t0 then 4
  else 5

/-- One iteration of `calculateKeywordScore`'s per-term loop: accumulates
(score, totalMatches) with the per-field credits — name 0.7 (0.9 when the
whole lowercased name equals the term), email 0.4, phone 0.5, tags 0.3. -/
def scoreStep (row : ContactRow) (p : ℚ × ℕ) (term : Str) : ℚ × ℕ :=
  let name := toLowerStr row.name
  let email := toLowerStr (row.email.getD [])
  let phone := toLowerStr (row.phone.getD [])
  let tags := toLowerStr (row.tags.getD [])
  let lowerTerm := toLowerStr term
  let p := if jsIncludes name lowerTerm then
      (p.1 + (if name = lowerTerm then 9/10 else 7/10), p.2 + 1) else p
  let p := if jsIncludes email lowerTerm then (p.1 + 4/10, p.2 + 1) else p
  let p := if jsIncludes phone lowerTerm then (p.1 + 5/10, p.2 + 1) else p
  let p := if jsIncludes tags lowerTerm then (p.1 + 3/10, p.2 + 1) else p
  p

/-- `calculateKeywordScore`: exact full-name short-circuit (1.0), the
all-terms-in-name branch (0.95), or the normalized capped credit sum. -/
def calculateKeywordScore (row : ContactRow) (searchTerms : List Str) : ℚ :=
  let name := toLowerStr row.name
  let fullQuery := toLowerStr (List.intercalate [' '] searchTerms)
  if name = fullQuery then 1
  else
    let nameWords := jsSplitWs name
    let queryWords := searchTerms.map toLowerStr
    let allWordsInName :=
      queryWords.all (fun word => nameWords.any (fun nameWord => jsIncludes nameWord word))
    if allWordsInName && nameWords.length == queryWords.length then 95/100
    else
      let acc := searchTerms.foldl (scoreStep row) (0, 0)
      if acc.2 = 0 then 0
      else min (acc.1 / ((searchTerms.length : ℚ) * 2)) 1

/-- `createSnippet`: the concatenated fields, or the 100-character window
maximizing the number of matched terms, with ellipses at cut boundaries. -/
def createSnippet (row : ContactRow) (searchTerms : List Str) : Str :=
  let content := row.name ++ [' '] ++ row.email.getD [] ++ [' ']
    ++ row.phone.getD [] ++ [' '] ++ row.tags.getD []
  if content.length ≤ 100 then jsTrim content
  else
    let bestStart := ((List.range (content.length - 100 + 1)).foldl
      (fun (bm : ℕ × ℕ) i =>
        let m := searchTerms.countP (fun term =>
          jsIncludes (toLowerStr ((content.drop i).take 100)) (toLowerStr term))
        if bm.2 < m then (i, m) else bm) (0, 0)).1
    let snip := (content.drop bestStart).take 100
    let snip := (if 0 < bestStart then "...".toList else []) ++ snip
    let snip := snip ++ (if bestStart + 100 < content.length then "...".toList else [])
    jsTrim snip

/-- The `matchedField` computation of `performSimpleSearch`: default
`name`; `email` if the (truthy) email contains the first term
case-insensitively; else `phone` if the (truthy) phone contains the first
term (case-sensitively); `tags` is never produced. -/
def matchedFieldOf (row : ContactRow) (t0 : Str) : Str :=
  if jsTruthy row.email &&
      jsIncludes (toLowerStr (row.email.getD [])) (toLowerStr t0) then
    "email".toList
  else if jsTruthy row.phone && jsIncludes (row.phone.getD []) t0 then
    "phone".toList
  else "name".toList

/-- `performSimpleSearch`: split the query, filter the contacts table by the
**first** term only, order by field-priority then name, limit, and score
each row with all terms.  `sqlFails` models `db.getAllSync` throwing, which
the catch block turns into `[]`. -/
def performSimpleSearch (rows : List ContactRow) (sqlFails : Bool)
    (query : Str) (limit : ℕ) : List KeywordSearchResult :=
  let searchTerms := (jsSplitWs query).filter (fun t => !t.isEmpty)
  match searchTerms with
  | [] => []
  | t0 :: _ =>
    if sqlFails then []
    else
      ((jsStableSort (fun a b => decide (rowOrderKey a t0 < rowOrderKey b t0 ∨
          (rowOrderKey a t0 = rowOrderKey b t0 ∧ strLeB a.name b.name = true)))
        (rows.filter (fun r => rowMatchesFirstTerm r t0))).take limit).map
        (fun row =>
          { contactId := row.id
            score := calculateKeywordScore row searchTerms
            matchedField := matchedFieldOf row t0
            snippet := some (createSnippet row searchTerms)
            matchCount := searchTerms.length })

/-- `KeywordSearchService.search` (FTS5 is disabled in the code, so this is
the blank-query check plus `performSimpleSearch`). -/
def KeywordSearchService.search (rows : List ContactRow) (sqlFails : Bool)
    (query : Str) (limit : ℕ) : List KeywordSearchResult :=
  if (jsTrim query).isEmpty then []
  else performSimpleSearch rows sqlFails query limit

/-! ## Hybrid search coordinator (hybridSearchService.ts) -/

/-- The slice of a `Contact` this subsystem reads (`getContact` results are
only used for `id` and `name`). -/
structure Contact where
  id : Str
  name : Str
deriving DecidableEq

/-- The environment of one `HybridSearchService` query: configuration plus
the behaviour of every collaborator.  `Except Unit` return types model
collaborators that may throw. -/
structure SearchEnv where
  cfg : SearchConfig
  sqrt : ℚ → ℚ
  genEmbedding : Str → Except Unit (List ℚ)
  vectorStore : Option VectorStore
  contactRows : List ContactRow
  sqlFails : Bool
  getContact : Str → Except Unit (Option Contact)

/-- `Map.set` on an insertion-ordered string-keyed map (updating an existing
key keeps its position; a new key is appended), as JS `Map` does. -/
def mapSet (m : List (Str × SearchResult)) (k : Str) (v : SearchResult) :
    List (Str × SearchResult) :=
  match m with
  | [] => [(k, v)]
  | (k', v') :: rest =>
    if k' = k then (k', v) :: rest else (k', v') :: mapSet rest k v

/-- `Map.get`. -/
def mapGet (m : List (Str × SearchResult)) (k : Str) : Option SearchResult :=
  match m with
  | [] => none
  | (k', v') :: rest => if k' = k then some v' else mapGet rest k

/-- The map entry a semantic result contributes in `mergeAndRankResults`. -/
def semMergeEntry (cfg : SearchConfig) (s : SemanticSearchResult) : SearchResult :=
  { contactId := s.contactId, name := [], score := s.score * cfg.semanticWeight,
    matchedField := s.matchedField, snippet := s.snippet }

/-- The keyword contribution of `mergeAndRankResults`: weighted score,
tripled when `matchedField === 'name' && score > 0.8`. -/
def keywordContribution (cfg : SearchConfig) (r : KeywordSearchResult) : ℚ :=
  if r.matchedField = "name".toList ∧ (8/10 : ℚ) < r.score then
    r.score * cfg.keywordWeight * 3
  else r.score * cfg.keywordWeight

/-- How one keyword result combines with the entry currently stored for its
contactId (if any): the override contribution replaces the stored score,
any other contribution takes the `max`; keyword snippets override for
name/email/phone matches; a contact seen only by keyword search gets a new
entry. -/
def keyMergedValue (cfg : SearchConfig) (existing? : Option SearchResult)
    (r : KeywordSearchResult) : SearchResult :=
  match existing? with
  | some existing =>
    { existing with
      score :=
        if r.matchedField = "name".toList ∧ (8/10 : ℚ) < r.score then
          keywordContribution cfg r
        else max existing.score (keywordContribution cfg r)
      snippet :=
        if ["name".toList, "email".toList, "phone".toList].contains r.matchedField
        then r.snippet else existing.snippet }
  | none =>
    { contactId := r.contactId, name := [], score := keywordContribution cfg r,
      matchedField := some r.matchedField, snippet := r.snippet }

/-- One step of the keyword loop of `mergeAndRankResults`. -/
def keyMergeStep (cfg : SearchConfig) (m : List (Str × SearchResult))
    (r : KeywordSearchResult) : List (Str × SearchResult) :=
  mapSet m r.contactId (keyMergedValue cfg (mapGet m r.contactId) r)

/-- `mergeAndRankResults`: semantic contributions weighted by
`semanticWeight`; keyword contributions merged per `keyMergedValue`;
the map's insertion-ordered values are returned. -/
def mergeAndRankResults (cfg : SearchConfig)
    (semanticResults : List SemanticSearchResult)
    (keywordResults : List KeywordSearchResult) : List SearchResult :=
  (keywordResults.foldl (keyMergeStep cfg)
    (semanticResults.foldl (fun m s => mapSet m s.contactId (semMergeEntry cfg s))
      [])).map (fun p => p.2)

/-- `performSemanticSearch`: embed the query and search the vector store;
any failure (no store, provider throw, dimension mismatch) degrades to
`[]` via the internal catch. -/
def performSemanticSearch (env : SearchEnv) (query : Str) :
    List SemanticSearchResult :=
  match env.vectorStore with
  | none => []
  | some vs =>
    match env.genEmbedding query with
    | .error _ => []
    | .ok qEmbed =>
      match vs.search env.sqrt qEmbed env.cfg.maxResults with
      | .error _ => []
      | .ok rs => rs

/-- `performKeywordSearch`: delegates to the keyword service (whose own
catches make it total; the outer catch never fires). -/
def performKeywordSearch (env : SearchEnv) (query : Str) :
    List KeywordSearchResult :=
  KeywordSearchService.search env.contactRows env.sqlFails query env.cfg.maxResults

/-- `Promise.all` over fallible lookups: the first throw rejects the whole
batch, otherwise all results are collected in order. -/
def exceptMapM (f : α → Except Unit β) : List α → Except Unit (List β)
  | [] => .ok []
  | a :: as =>
    match f a with
    | .error e => .error e
    | .ok b =>
      match exceptMapM f as with
      | .error e => .error e
      | .ok bs => .ok (b :: bs)

/-- `enrichResults`: looks every merged contact up in the directory; a throw
from `getContact` propagates (`.error`). -/
def enrichResultsE (env : SearchEnv) (results : List SearchResult) :
    Except Unit (List SearchResult) :=
  exceptMapM (fun r =>
    match env.getContact r.contactId with
    | .error e => .error e
    | .ok c? => .ok { r with name := (c?.map Contact.name).getD [] }) results

/-- The body of the `try` block of `HybridSearchService.search`: run both
sub-searches, merge, enrich, sort descending, truncate.  An `.error` is an
unexpected throw of the fusion pipeline. -/
def searchMainE (env : SearchEnv) (query : Str) :
    Except Unit (List SearchResult) :=
  match enrichResultsE env (mergeAndRankResults env.cfg
      (performSemanticSearch env query) (performKeywordSearch env query)) with
  | .error e => .error e
  | .ok enriched =>
    .ok ((jsStableSort (fun a b => decide (b.score ≤ a.score)) enriched).take
      env.cfg.maxResults)

/-- The fallback block of the `catch`: keyword-only results, each contact
resolved via the directory and given the fixed placeholder score 0.5. -/
def searchFallbackE (env : SearchEnv) (query : Str) :
    Except Unit (List SearchResult) :=
  match exceptMapM env.getContact
      ((performKeywordSearch env query).map (fun r => r.contactId)) with
  | .error e => .error e
  | .ok contacts =>
    .ok ((contacts.filterMap id).map (fun c =>
      { contactId := c.id, name := c.name, score := 1/2,
        matchedField := none, snippet := none }))

/-- `HybridSearchService.search`: blank-query check, then the fusion
pipeline, then the keyword fallback, then `[]` — total by construction. -/
def HybridSearchService.search (env : SearchEnv) (query : Str) :
    List SearchResult :=
  if (jsTrim query).isEmpty then []
  else
    match searchMainE env query with
    | .ok rs => rs
    | .error _ =>
      match searchFallbackE env query with
      | .ok rs => rs
      | .error _ => []

/-- The whole method with its try/catch structure made explicit as an
`Except` computation: the outer catch turns every error into a value. -/
def HybridSearchService.searchE (env : SearchEnv) (query : Str) :
    Except Unit (List SearchResult) :=
  if (jsTrim query).isEmpty then .ok []
  else
    match searchMainE env query with
    | .ok rs => .ok rs
    | .error _ =>
      match searchFallbackE env query with
      | .ok rs => .ok rs
      | .error _ => .ok []

/-- `searchTagsOnly`: semantic-only; scores weighted by `semanticWeight`;
no keyword fusion and no filtering.  `getContact` throws propagate (the
method has no try/catch). -/
def searchTagsOnlyE (env : SearchEnv) (query : Str) :
    Except Unit (List SearchResult) :=
  if (jsTrim query).isEmpty then .ok []
  else
    match exceptMapM env.getContact
        ((performSemanticSearch env query).map (fun r => r.contactId)) with
    | .error e => .error e
    | .ok contacts =>
      let enriched := ((performSemanticSearch env query).zip contacts).map (fun rc =>
        { contactId := rc.1.contactId, name := ((rc.2.map Contact.name).getD []),
          score := rc.1.score * env.cfg.semanticWeight,
          matchedField := none, snippet := none : SearchResult })
      .ok ((jsStableSort (fun a b => decide (b.score ≤ a.score)) enriched).take
        env.cfg.maxResults)

/-! ## Helper lemmas -/

theorem foldl_add_map (g : ℚ → ℚ) (l : List ℚ) (a : ℚ) :
    l.foldl (fun acc x => acc + g x) a = a + (l.map g).sum := by
  induction l generalizing a with
  | nil => simp
  | cons x xs ih => simp [ih, add_assoc]

theorem cosineSimilarity_eq_sum (a b : List ℚ) :
    cosineSimilarity a b = (List.zipWith (fun x y => x * y) a b).sum := by
  have h := foldl_add_map (fun x => x) (List.zipWith (fun x y => x * y) a b) 0
  simpa [cosineSimilarity] using h

theorem sumSquares_eq_sum (v : List ℚ) :
    sumSquares v = (v.map (fun x => x * x)).sum := by
  have h := foldl_add_map (fun x => x * x) v 0
  simpa [sumSquares] using h

theorem zipWith_self_eq_map (f : α → α → β) (l : List α) :
    List.zipWith f l l = l.map (fun x => f x x) := by
  induction l with
  | nil => simp
  | cons x xs ih => simp [ih]

theorem cosineSimilarity_map_div_left (v : List ℚ) (n : ℚ) :
    cosineSimilarity (v.map (fun x => x / n)) v = sumSquares v / n := by
  rw [cosineSimilarity_eq_sum, sumSquares_eq_sum, List.zipWith_map_left,
    zipWith_self_eq_map]
  have h : (fun x : ℚ => x / n * x) = fun x : ℚ => x * x * (1 / n) := by
    funext x; ring
  rw [h, List.sum_map_mul_right, mul_one_div]

theorem cosineSimilarity_map_div_both (v : List ℚ) (n : ℚ) :
    cosineSimilarity (v.map (fun x => x / n)) (v.map (fun x => x / n)) =
      sumSquares v / (n * n) := by
  rw [cosineSimilarity_eq_sum, sumSquares_eq_sum, List.zipWith_map_left,
    List.zipWith_map_right, zipWith_self_eq_map]
  have h : (fun x : ℚ => x / n * (x / n)) = fun x : ℚ => x * x * (1 / (n * n)) := by
    funext x; ring
  rw [h, List.sum_map_mul_right, mul_one_div]

/-! ## Claim C9 -/

/-- C9: adding a single document whose embedding length differs from the
configured dimension fails (with the dimension-mismatch error) and leaves
the document count unchanged; `addDocuments` never fails: every document of
the batch with a matching-dimension embedding is inserted, and every
document with a missing or wrong-dimension embedding is skipped (its
membership in the store is unchanged). -/
theorem c9_add_rejects_mismatch_batch_skips_invalid
    (s : VectorStore) (d : ℕ) (doc : VectorDocument) (e : List ℚ)
    (docs : List VectorDocument)
    (hd : s.dimension = some d) (he : doc.embedding = some e)
    (hne : e.length ≠ d) :
    s.addDocument doc = .error (embedDimMismatchMsg d e.length) ∧
    (s.addDocumentState doc).documents.length = s.documents.length ∧
    (∀ doc' ∈ docs, ∀ e', doc'.embedding = some e' → e'.length = d →
      doc' ∈ (s.addDocuments docs).documents) ∧
    (∀ doc' ∈ docs,
      (doc'.embedding = none ∨ ∃ e', doc'.embedding = some e' ∧ e'.length ≠ d) →
      (doc' ∈ (s.addDocuments docs).documents ↔ doc' ∈ s.documents)) := by
  have herr : s.addDocument doc = .error (embedDimMismatchMsg d e.length) := by
    simp [VectorStore.addDocument, he, hd, hne]
  refine ⟨herr, ?_, ?_, ?_⟩
  · simp [VectorStore.addDocumentState, herr]
  · intro doc' hmem e' he' hlen
    have hvalid : validForBatch s doc' = true := by
      simp [validForBatch, he', hd, hlen]
    simp only [VectorStore.addDocuments, List.mem_append]
    exact Or.inr (List.mem_filter.mpr ⟨hmem, hvalid⟩)
  · intro doc' _ hinvalid
    have hvalid : validForBatch s doc' = false := by
      rcases hinvalid with hnone | ⟨e', he', hlen⟩
      · simp [validForBatch, hnone]
      · simp [validForBatch, he', hd, hlen]
    simp only [VectorStore.addDocuments, List.mem_append]
    constructor
    · intro h
      rcases h with h | h
      · exact h
      · exact absurd (List.mem_filter.mp h).2 (by simp [hvalid])
    · exact Or.inl

/-- Witness for C9 at a concrete store (dimension 2, one stored document):
a 1-dimensional embedding is rejected and the count stays 1; in a batch, a
valid 2-dimensional document is inserted while an embedding-less document
is skipped. -/
theorem c9_witness :
    (VectorStore.mk [⟨['x'], some [5, 6]⟩] (some 2)).addDocument
        ⟨['a'], some [1]⟩ = .error (embedDimMismatchMsg 2 1) ∧
    ((VectorStore.mk [⟨['x'], some [5, 6]⟩] (some 2)).addDocumentState
        ⟨['a'], some [1]⟩).documents.length = 1 ∧
    (⟨['b'], some [3, 4]⟩ : VectorDocument) ∈
      ((VectorStore.mk [⟨['x'], some [5, 6]⟩] (some 2)).addDocuments
        [⟨['b'], some [3, 4]⟩, ⟨['c'], none⟩]).documents ∧
    ¬ (⟨['c'], none⟩ : VectorDocument) ∈
      ((VectorStore.mk [⟨['x'], some [5, 6]⟩] (some 2)).addDocuments
        [⟨['b'], some [3, 4]⟩, ⟨['c'], none⟩]).documents := by
  have h := c9_add_rejects_mismatch_batch_skips_invalid
    (VectorStore.mk [⟨['x'], some [5, 6]⟩] (some 2)) 2 ⟨['a'], some [1]⟩ [1]
    [⟨['b'], some [3, 4]⟩, ⟨['c'], none⟩] rfl rfl (by decide)
  refine ⟨h.1, by simpa using h.2.1, ?_, ?_⟩
  · exact h.2.2.1 _ (by simp) [3, 4] rfl rfl
  · intro hc
    have := (h.2.2.2 ⟨['c'], none⟩ (by simp) (Or.inl rfl)).mp hc
    simp at this

/-! ## Claim C2 -/

/-- C2 counterexample: the empty-index check precedes the dimension check,
so an initialized (dimension 1536) but empty index answers a 1-dimensional
query with `.ok []` instead of failing with a dimension-mismatch error, as
the claim's "fails whenever the query length differs" requires. -/
theorem c2_counterexample :
    VectorStore.fresh.dimension = some 1536 ∧
    [(1 : ℚ)].length ≠ 1536 ∧
    VectorStore.fresh.search (fun x => x) [1] 10 = .ok [] :=
  ⟨rfl, by decide, rfl⟩

/-- C2 (amended): `search` returns `[]` on an empty index (even when the
dimension mismatches); on a **nonempty** index it fails with the
dimension-mismatch error whenever the query length differs from the
configured dimension; and every successful result has at most `k` entries,
is sorted non-increasing by score, and equals the spec-side ranking
(descending similarity, ties broken by stable insertion order). -/
theorem c2_amended (f : ℚ → ℚ) (s : VectorStore) (q : List ℚ) (k : ℕ) :
    (s.documents = [] → s.search f q k = .ok []) ∧
    (s.documents ≠ [] → some q.length ≠ s.dimension →
      s.search f q k = .error (queryDimMismatchMsg s.dimension q.length)) ∧
    (∀ res, s.search f q k = .ok res →
      res.length ≤ k ∧
      res.Pairwise (fun a b => b.score ≤ a.score) ∧
      res = ((specVectorRank (similarityList f s q)).take k).map (fun p =>
        { contactId := (s.documents.getD p.1 ⟨[], none⟩).id, score := p.2,
          matchedField := none, snippet := none })) := by
  refine ⟨?_, ?_, ?_⟩
  · intro h
    simp [VectorStore.search, h]
  · intro hne hdim
    rw [VectorStore.search, if_neg (by simpa using hne), if_pos hdim]
  · intro res hres
    by_cases hempty : s.documents.length = 0
    · have hres' : res = [] := by
        rw [VectorStore.search, if_pos hempty] at hres
        exact (Except.ok.injEq _ _).mp hres |>.symm
      subst hres'
      refine ⟨by simp, by simp, ?_⟩
      have hdocs : s.documents = [] := List.length_eq_zero.mp hempty
      simp [specVectorRank, similarityList, hdocs, jsStableSort]
    · by_cases hdim : some q.length ≠ s.dimension
      · rw [VectorStore.search, if_neg hempty, if_pos hdim] at hres
        exact absurd hres (by simp)
      · rw [VectorStore.search, if_neg hempty, if_neg hdim] at hres
        have hres' := (Except.ok.injEq _ _).mp hres |>.symm
        subst hres'
        have htotal : ∀ a b : ℕ × ℚ,
            (fun a b : ℕ × ℚ => decide (b.2 ≤ a.2)) a b = true ∨
            (fun a b : ℕ × ℚ => decide (b.2 ≤ a.2)) b a = true := by
          intro a b
          rcases le_total a.2 b.2 with h | h
          · exact Or.inr (by simpa using h)
          · exact Or.inl (by simpa using h)
        have htrans : ∀ a b c : ℕ × ℚ,
            (fun a b : ℕ × ℚ => decide (b.2 ≤ a.2)) a b = true →
            (fun a b : ℕ × ℚ => decide (b.2 ≤ a.2)) b c = true →
            (fun a b : ℕ × ℚ => decide (b.2 ≤ a.2)) a c = true := by
          intro a b c hab hbc
          simp only [decide_eq_true_eq] at *
          exact le_trans hbc hab
        have hsorted := pairwise_jsStableSort _ htotal htrans (similarityList f s q)
        refine ⟨?_, ?_, ?_⟩
        · simp [List.length_take]
        · rw [List.pairwise_map]
          refine ((hsorted.sublist (List.take_sublist k _)).imp ?_)
          intro a b h
          simpa using h
        · have hl : (similarityList f s q).Pairwise (fun a b => a.1 < b.1) := by
            unfold similarityList
            exact pairwise_fst_lt_enum _
          rw [specVectorRank, ← jsStableSort_desc_eq_lexSort _ hl]

/-- Witness for C2 (amended): a nonempty dimension-1 store rejects a
2-dimensional query with the dimension-mismatch error, and an empty store
returns `.ok []`. -/
theorem c2_witness :
    (VectorStore.mk [⟨['a'], some [2]⟩] (some 1)).search (fun x => x) [3, 4] 5 =
      .error (queryDimMismatchMsg (some 1) 2) ∧
    VectorStore.fresh.search (fun x => x) [] 3 = .ok [] := by
  constructor
  · exact (c2_amended (fun x => x) _ [3, 4] 5).2.1 (by simp) (by decide)
  · exact (c2_amended (fun x => x) VectorStore.fresh [] 3).1 rfl

/-! ## Claim C8 -/

/-- C8 counterexample: `search` normalizes only the query, while the stored
embedding stays raw, so for `v = [2]` (squared norm 4, and `Math.sqrt 4 = 2`
exactly) the computed self-similarity is `2`, not within `1e-6` of `1`. -/
theorem c8_counterexample :
    cosineSimilarity
        (normalizeVector (fun x => if x = 4 then 2 else 0) [2]) [2] = 2 ∧
    ¬ |(2 : ℚ) - 1| ≤ 1 / 1000000 := by
  constructor
  · norm_num [cosineSimilarity, normalizeVector, sumSquares]
  · norm_num

/-- C8 (amended): for any nonzero `v`, with `f` behaving as `Math.sqrt` on
the squared norm (`f s * f s = s`), the similarity the pipeline computes
between `v` as query and `v` as the raw stored embedding equals the norm
`f (sumSquares v)` — it is `1` only for unit vectors.  Had the stored side
also been normalized, the similarity would be exactly `1`. -/
theorem c8_amended (f : ℚ → ℚ) (v : List ℚ)
    (hf : f (sumSquares v) * f (sumSquares v) = sumSquares v)
    (h0 : sumSquares v ≠ 0) :
    cosineSimilarity (normalizeVector f v) v = f (sumSquares v) ∧
    cosineSimilarity (normalizeVector f v) (normalizeVector f v) = 1 := by
  have hn : f (sumSquares v) ≠ 0 := by
    intro h
    rw [h, zero_mul] at hf
    exact h0 hf.symm
  have hnorm : normalizeVector f v = v.map (fun x => x / f (sumSquares v)) := by
    simp only [normalizeVector]
    rw [if_neg hn]
  constructor
  · rw [hnorm, cosineSimilarity_map_div_left, div_eq_iff hn]
    exact hf.symm
  · rw [hnorm, cosineSimilarity_map_div_both, hf]
    exact div_self h0

/-- Witness for C8 (amended) at `v = [2]` with `f` matching `Math.sqrt` at
the only point where it is evaluated (`f 4 = 2`). -/
theorem c8_witness :
    cosineSimilarity
        (normalizeVector (fun x => if x = 4 then (2 : ℚ) else 0) [2]) [2] =
      (fun x => if x = 4 then (2 : ℚ) else 0) (sumSquares [2]) ∧
    cosineSimilarity
        (normalizeVector (fun x => if x = 4 then (2 : ℚ) else 0) [2])
        (normalizeVector (fun x => if x = 4 then (2 : ℚ) else 0) [2]) = 1 :=
  c8_amended (fun x => if x = 4 then (2 : ℚ) else 0) [2]
    (by norm_num [sumSquares]) (by norm_num [sumSquares])

/-! ## Claim C3 -/

theorem mapGet_mapSet_self (m : List (Str × SearchResult)) (k : Str)
    (v : SearchResult) : mapGet (mapSet m k v) k = some v := by
  induction m with
  | nil => simp [mapSet, mapGet]
  | cons p rest ih =>
    simp only [mapSet]
    by_cases h : p.1 = k
    · simp [mapGet, h]
    · simp only [if_neg h, mapGet, ih]

theorem mapGet_mapSet_ne (m : List (Str × SearchResult)) (k k' : Str)
    (v : SearchResult) (h : k' ≠ k) :
    mapGet (mapSet m k' v) k = mapGet m k := by
  induction m with
  | nil => simp [mapSet, mapGet, h]
  | cons p rest ih =>
    simp only [mapSet]
    by_cases hp : p.1 = k'
    · simp only [if_pos hp, mapGet]
      rw [if_neg (hp ▸ h), if_neg (hp ▸ h)]
    · simp only [if_neg hp, mapGet, ih]

theorem mem_values_of_mapGet (m : List (Str × SearchResult)) (k : Str)
    (v : SearchResult) (h : mapGet m k = some v) :
    v ∈ m.map (fun p => p.2) := by
  induction m with
  | nil => simp [mapGet] at h
  | cons p rest ih =>
    simp only [mapGet] at h
    by_cases hp : p.1 = k
    · rw [if_pos hp] at h
      have hv : v = p.2 := (Option.some_inj.mp h).symm
      subst hv
      rw [List.map_cons]
      exact List.mem_cons_self _ _
    · rw [if_neg hp] at h
      rw [List.map_cons]
      exact List.mem_cons_of_mem _ (ih h)

/-- A fold whose every step sets a key different from `c` preserves the
entry at `c`. -/
theorem foldl_mapGet_of_ne (L : List α) (keyf : α → Str)
    (valf : List (Str × SearchResult) → α → SearchResult) (c : Str)
    (h : ∀ x ∈ L, keyf x ≠ c) (m : List (Str × SearchResult)) :
    mapGet (L.foldl (fun m x => mapSet m (keyf x) (valf m x)) m) c = mapGet m c := by
  induction L generalizing m with
  | nil => rfl
  | cons x xs ih =>
    rw [List.foldl_cons, ih (fun y hy => h y (List.mem_cons_of_mem x hy)),
      mapGet_mapSet_ne _ _ _ _ (h x (List.mem_cons_self x xs))]

/-- After the semantic fold (with distinct contactIds), the entry stored for
a semantic result's contactId is its weighted entry. -/
theorem semFold_mapGet (cfg : SearchConfig) :
    ∀ (sem : List SemanticSearchResult) (m : List (Str × SearchResult))
      (s : SemanticSearchResult), s ∈ sem →
      (sem.map (fun x => x.contactId)).Nodup →
      mapGet (sem.foldl (fun m s => mapSet m s.contactId (semMergeEntry cfg s)) m)
        s.contactId = some (semMergeEntry cfg s) := by
  intro sem
  induction sem with
  | nil => intro m s hs; simp at hs
  | cons a tl ih =>
    intro m s hs hnd
    rcases List.nodup_cons.mp hnd with ⟨ha, htl⟩
    rcases List.mem_cons.mp hs with rfl | hs
    · rw [List.foldl_cons]
      rw [foldl_mapGet_of_ne tl (fun x => x.contactId)
        (fun _ x => semMergeEntry cfg x) s.contactId
        (fun y hy heq => ha (List.mem_map.mpr ⟨y, hy, heq⟩))]
      exact mapGet_mapSet_self m s.contactId (semMergeEntry cfg s)
    · rw [List.foldl_cons]
      exact ih _ s hs htl

/-- After the keyword fold (with distinct contactIds), the entry stored for
a keyword result's contactId is the merge of that result with whatever the
semantic pass stored there. -/
theorem keyFold_mapGet (cfg : SearchConfig) :
    ∀ (key : List KeywordSearchResult) (m : List (Str × SearchResult))
      (r : KeywordSearchResult), r ∈ key →
      (key.map (fun x => x.contactId)).Nodup →
      mapGet (key.foldl (keyMergeStep cfg) m) r.contactId =
        some (keyMergedValue cfg (mapGet m r.contactId) r) := by
  intro key
  induction key with
  | nil => intro m r hr; simp at hr
  | cons a tl ih =>
    intro m r hr hnd
    rcases List.nodup_cons.mp hnd with ⟨ha, htl⟩
    rcases List.mem_cons.mp hr with rfl | hr
    · rw [List.foldl_cons]
      have hne : ∀ x ∈ tl, x.contactId ≠ r.contactId :=
        fun y hy heq => ha (List.mem_map.mpr ⟨y, hy, heq⟩)
      have hpres : mapGet (tl.foldl (keyMergeStep cfg) (keyMergeStep cfg m r))
          r.contactId = mapGet (keyMergeStep cfg m r) r.contactId := by
        have := foldl_mapGet_of_ne tl (fun x => x.contactId)
          (fun m x => keyMergedValue cfg (mapGet m x.contactId) x) r.contactId
          hne (keyMergeStep cfg m r)
        simpa [keyMergeStep] using this
      rw [hpres, keyMergeStep, mapGet_mapSet_self]
    · rw [List.foldl_cons, ih _ r hr htl, keyMergeStep,
        mapGet_mapSet_ne _ _ _ _
          (fun heq => (List.nodup_cons.mp hnd).1
            (List.mem_map.mpr ⟨r, hr, heq.symm⟩))]

/-- C3: in merge-and-rank fusion, with each list carrying distinct
contactIds, a keyword result sharing its contactId with a semantic result
produces a merged entry whose score is the tripled weighted keyword score
when `matchedField = name` and `keywordScore > 0.8` (replacing the semantic
contribution), and otherwise the max of the two weighted contributions. -/
theorem c3_merge_override_and_max (cfg : SearchConfig)
    (sem : List SemanticSearchResult) (key : List KeywordSearchResult)
    (hsem : (sem.map (fun x => x.contactId)).Nodup)
    (hkey : (key.map (fun x => x.contactId)).Nodup)
    (r : KeywordSearchResult) (hr : r ∈ key)
    (s : SemanticSearchResult) (hs : s ∈ sem)
    (hid : s.contactId = r.contactId) :
    ∃ e ∈ mergeAndRankResults cfg sem key,
      e.contactId = r.contactId ∧
      e.score = if r.matchedField = "name".toList ∧ (8/10 : ℚ) < r.score
        then r.score * cfg.keywordWeight * 3
        else max (s.score * cfg.semanticWeight) (r.score * cfg.keywordWeight) := by
  have hm0 := semFold_mapGet cfg sem [] s hs hsem
  have hm1 := keyFold_mapGet cfg key
    (sem.foldl (fun m s => mapSet m s.contactId (semMergeEntry cfg s)) [])
    r hr hkey
  rw [hid] at hm0
  rw [hm0] at hm1
  refine ⟨keyMergedValue cfg (some (semMergeEntry cfg s)) r,
    mem_values_of_mapGet _ _ _ hm1, ?_, ?_⟩
  · simp [keyMergedValue, semMergeEntry, hid]
  · simp only [keyMergedValue, keywordContribution, semMergeEntry]
    split_ifs <;> rfl

/-- Witness for C3: one semantic hit (score 1/2) and one name-matched
keyword hit (score 9/10 > 0.8) on the same contact: the merged score is
`0.9 × keywordWeight × 3` under the default configuration. -/
theorem c3_witness :
    ∃ e ∈ mergeAndRankResults DEFAULT_SEARCH_CONFIG
        [⟨['c', '1'], 1/2, none, none⟩]
        [⟨['c', '1'], 9/10, "name".toList, none, 1⟩],
      e.contactId = ['c', '1'] ∧
      e.score = if ("name".toList : Str) = "name".toList ∧ (8/10 : ℚ) < 9/10
        then (9/10 : ℚ) * DEFAULT_SEARCH_CONFIG.keywordWeight * 3
        else max ((1/2 : ℚ) * DEFAULT_SEARCH_CONFIG.semanticWeight)
          ((9/10 : ℚ) * DEFAULT_SEARCH_CONFIG.keywordWeight) := by
  have h := c3_merge_override_and_max DEFAULT_SEARCH_CONFIG
    [⟨['c', '1'], 1/2, none, none⟩]
    [⟨['c', '1'], 9/10, "name".toList, none, 1⟩]
    (by simp) (by simp)
    ⟨['c', '1'], 9/10, "name".toList, none, 1⟩ (by simp)
    ⟨['c', '1'], 1/2, none, none⟩ (by simp) rfl
  exact h

/-! ## Claim C4 -/

/-- The total credit a single term earns across the four fields in
`calculateKeywordScore`'s loop. -/
def termFieldCredit (row : ContactRow) (term : Str) : ℚ :=
  (if jsIncludes (toLowerStr row.name) (toLowerStr term) then
    (if toLowerStr row.name = toLowerStr term then 9/10 else 7/10) else 0)
  + (if jsIncludes (toLowerStr (row.email.getD [])) (toLowerStr term) then 4/10 else 0)
  + (if jsIncludes (toLowerStr (row.phone.getD [])) (toLowerStr term) then 5/10 else 0)
  + (if jsIncludes (toLowerStr (row.tags.getD [])) (toLowerStr term) then 3/10 else 0)

/-- The number of fields a single term matches in that loop. -/
def termMatchCount (row : ContactRow) (term : Str) : ℕ :=
  (if jsIncludes (toLowerStr row.name) (toLowerStr term) then 1 else 0)
  + (if jsIncludes (toLowerStr (row.email.getD [])) (toLowerStr term) then 1 else 0)
  + (if jsIncludes (toLowerStr (row.phone.getD [])) (toLowerStr term) then 1 else 0)
  + (if jsIncludes (toLowerStr (row.tags.getD [])) (toLowerStr term) then 1 else 0)

theorem scoreStep_eq (row : ContactRow) (p : ℚ × ℕ) (term : Str) :
    scoreStep row p term =
      (p.1 + termFieldCredit row term, p.2 + termMatchCount row term) := by
  simp only [scoreStep, termFieldCredit, termMatchCount]
  split_ifs <;> exact Prod.ext (by ring) (by omega)

theorem foldl_scoreStep (row : ContactRow) (terms : List Str) (p : ℚ × ℕ) :
    terms.foldl (scoreStep row) p =
      (p.1 + (terms.map (termFieldCredit row)).sum,
        p.2 + (terms.map (termMatchCount row)).sum) := by
  induction terms generalizing p with
  | nil => simp
  | cons t ts ih =>
    rw [List.foldl_cons, scoreStep_eq, ih]
    exact Prod.ext (by simp; ring) (by simp; omega)

/-- Modelled from the spec: "all terms individually found within name-word
prefixes" — every lowercased query term is a prefix of some word of the
lowercased name. -/
def specAllTermsWithinNamePrefixes (name : Str) (terms : List Str) : Bool :=
  (terms.map toLowerStr).all (fun w =>
    (jsSplitWs (toLowerStr name)).any (fun nameWord => w.isPrefixOf nameWord))

/-- C4 counterexample.  First: for name "Ada Lovelace" and the one-term
query "Ada", every term lies within a name-word prefix, yet the score is
0.35, not the claimed 0.95 (the code also requires the name to have exactly
as many words as the query has terms, and tests substring containment, not
prefixes).  Second: a partial (non-exact-name) match can also reach the cap
1.0, so an exact full-name match does not strictly outrank every partial
match. -/
theorem c4_counterexample :
    specAllTermsWithinNamePrefixes "Ada Lovelace".toList ["Ada".toList] = true ∧
    toLowerStr "Ada Lovelace".toList ≠
      toLowerStr (List.intercalate [' '] ["Ada".toList]) ∧
    calculateKeywordScore
      ⟨['c', '1'], "Ada Lovelace".toList, none, none, none⟩ ["Ada".toList] = 7/20 ∧
    (7/20 : ℚ) ≠ 95/100 ∧
    toLowerStr "ada".toList ≠
      toLowerStr (List.intercalate [' '] ["ada".toList, "ada".toList]) ∧
    calculateKeywordScore
      ⟨['c', '2'], "ada".toList, some "ada@a".toList, some "1ada".toList,
        some "ada".toList⟩ ["ada".toList, "ada".toList] = 1 := by
  refine ⟨by decide, by decide, ?_, by norm_num, by decide, ?_⟩
  · simp +decide [calculateKeywordScore, scoreStep]
    norm_num
  · simp +decide [calculateKeywordScore, scoreStep]
    norm_num

/-- C4 (amended): the keyword score is 1.0 when the lowercased name equals
the full lowercased query; else 0.95 when every lowercased term is a
**substring** of some word of the name **and** the name has exactly as many
words as the query has terms; else 0 when no term matches any field, and
otherwise the per-term field credits (name 0.7, or 0.9 for a whole-name
term match; email 0.4; phone 0.5; tags 0.3) summed, divided by
`termCount × 2` and capped at 1.0.  The score never exceeds 1.0, so an
exact full-name match (1.0) weakly outranks every other match. -/
theorem c4_amended (row : ContactRow) (terms : List Str) :
    (toLowerStr row.name = toLowerStr (List.intercalate [' '] terms) →
      calculateKeywordScore row terms = 1) ∧
    (toLowerStr row.name ≠ toLowerStr (List.intercalate [' '] terms) →
      ((∀ w ∈ terms.map toLowerStr, ∃ nw ∈ jsSplitWs (toLowerStr row.name),
          jsIncludes nw w = true) ∧
        (jsSplitWs (toLowerStr row.name)).length = terms.length →
        calculateKeywordScore row terms = 95/100) ∧
      (¬ ((∀ w ∈ terms.map toLowerStr, ∃ nw ∈ jsSplitWs (toLowerStr row.name),
          jsIncludes nw w = true) ∧
        (jsSplitWs (toLowerStr row.name)).length = terms.length) →
        ((∀ t ∈ terms, termMatchCount row t = 0) →
          calculateKeywordScore row terms = 0) ∧
        (¬ (∀ t ∈ terms, termMatchCount row t = 0) →
          calculateKeywordScore row terms =
            min ((terms.map (termFieldCredit row)).sum /
              ((terms.length : ℚ) * 2)) 1))) ∧
    calculateKeywordScore row terms ≤ 1 := by
  have hbool : ((terms.map toLowerStr).all (fun word =>
        (jsSplitWs (toLowerStr row.name)).any (fun nameWord =>
          jsIncludes nameWord word)) &&
      (jsSplitWs (toLowerStr row.name)).length == (terms.map toLowerStr).length) =
        true ↔
      ((∀ w ∈ terms.map toLowerStr, ∃ nw ∈ jsSplitWs (toLowerStr row.name),
          jsIncludes nw w = true) ∧
        (jsSplitWs (toLowerStr row.name)).length = terms.length) := by
    simp [List.all_eq_true, List.any_eq_true]
  have hacc : terms.foldl (scoreStep row) (0, 0) =
      ((terms.map (termFieldCredit row)).sum,
        (terms.map (termMatchCount row)).sum) := by
    rw [foldl_scoreStep]
    exact Prod.ext (by simp) (by simp)
  have hzero : (terms.map (termMatchCount row)).sum = 0 ↔
      ∀ t ∈ terms, termMatchCount row t = 0 := by
    rw [List.sum_eq_zero_iff]
    constructor
    · intro h t ht
      exact h _ (List.mem_map_of_mem _ ht)
    · intro h n hn
      rcases List.mem_map.mp hn with ⟨t, ht, rfl⟩
      exact h t ht
  by_cases h1 : toLowerStr row.name = toLowerStr (List.intercalate [' '] terms)
  · refine ⟨fun _ => ?_, fun h => absurd h1 h, ?_⟩
    · rw [calculateKeywordScore, if_pos h1]
    · rw [calculateKeywordScore, if_pos h1]
  · by_cases h2 : ((∀ w ∈ terms.map toLowerStr,
        ∃ nw ∈ jsSplitWs (toLowerStr row.name), jsIncludes nw w = true) ∧
      (jsSplitWs (toLowerStr row.name)).length = terms.length)
    · have hs : calculateKeywordScore row terms = 95/100 := by
        rw [calculateKeywordScore, if_neg h1, if_pos (hbool.mpr h2)]
      exact ⟨fun h => absurd h h1, fun _ => ⟨fun _ => hs, fun h => absurd h2 h⟩,
        by rw [hs]; norm_num⟩
    · have hb2 : ¬ (((terms.map toLowerStr).all (fun word =>
          (jsSplitWs (toLowerStr row.name)).any (fun nameWord =>
            jsIncludes nameWord word)) &&
        (jsSplitWs (toLowerStr row.name)).length ==
          (terms.map toLowerStr).length) = true) := fun h => h2 (hbool.mp h)
      by_cases h3 : ∀ t ∈ terms, termMatchCount row t = 0
      · have hs : calculateKeywordScore row terms = 0 := by
          rw [calculateKeywordScore, if_neg h1, if_neg hb2, hacc,
            if_pos (hzero.mpr h3)]
        exact ⟨fun h => absurd h h1,
          fun _ => ⟨fun h => absurd h h2, fun _ => ⟨fun _ => hs, fun h => absurd h3 h⟩⟩,
          by rw [hs]; norm_num⟩
      · have hs : calculateKeywordScore row terms =
            min ((terms.map (termFieldCredit row)).sum /
              ((terms.length : ℚ) * 2)) 1 := by
          rw [calculateKeywordScore, if_neg h1, if_neg hb2, hacc,
            if_neg (fun h => h3 (hzero.mp h))]
        exact ⟨fun h => absurd h h1,
          fun _ => ⟨fun h => absurd h h2, fun _ => ⟨fun h => absurd h h3, fun _ => hs⟩⟩,
          by rw [hs]; exact min_le_right _ _⟩

/-- Witness for C4 (amended): name "ada" with the one-term query "ada" is
an exact full-name match and scores 1.0; with the query "bob" nothing
matches and the score is 0. -/
theorem c4_witness :
    calculateKeywordScore ⟨['c', '1'], "ada".toList, none, none, none⟩
        ["ada".toList] = 1 ∧
    calculateKeywordScore ⟨['c', '1'], "ada".toList, none, none, none⟩
        ["bob".toList] = 0 := by
  constructor
  · exact (c4_amended ⟨['c', '1'], "ada".toList, none, none, none⟩
      ["ada".toList]).1 (by decide)
  · exact (((c4_amended ⟨['c', '1'], "ada".toList, none, none, none⟩
      ["bob".toList]).2.1 (by decide)).2 (by decide)).1 (by decide)

/-! ## Claims C6 and C10: shared lemmas about `performSimpleSearch` -/

theorem jsIncludes_iff (hay sub : Str) :
    jsIncludes hay sub = true ↔ ∃ s, s <:+ hay ∧ sub <+: s := by
  induction hay with
  | nil =>
    simp only [jsIncludes, List.isEmpty_iff]
    constructor
    · intro h
      exact ⟨[], List.suffix_refl [], by simp [h]⟩
    · rintro ⟨s, hs, hp⟩
      have : s = [] := List.suffix_nil.mp hs
      subst this
      exact List.prefix_nil.mp hp
  | cons c t ih =>
    simp only [jsIncludes, Bool.or_eq_true, List.isPrefixOf_iff_prefix, ih]
    constructor
    · rintro (h | ⟨s, hs, hp⟩)
      · exact ⟨c :: t, List.suffix_refl _, h⟩
      · exact ⟨s, hs.trans (List.suffix_cons c t), hp⟩
    · rintro ⟨s, hs, hp⟩
      rcases (List.suffix_cons_iff).mp hs with rfl | hs
      · exact Or.inl hp
      · exact Or.inr ⟨s, hs, hp⟩

theorem likeMatch_percent_cons (ps t : Str) :
    likeMatch ('%' :: ps) t = true ↔ ∃ s, s <:+ t ∧ likeMatch ps s = true := by
  have hunf : likeMatch ('%' :: ps) t = t.tails.any (fun s => likeMatch ps s) := by
    simp [likeMatch]
  rw [hunf, List.any_eq_true]
  constructor
  · rintro ⟨s, hs, h⟩
    exact ⟨s, (List.mem_tails s t).mp hs, h⟩
  · rintro ⟨s, hs, h⟩
    exact ⟨s, (List.mem_tails s t).mpr hs, h⟩

theorem likeMatch_literal_percent (cs : Str) (hpc : '%' ∉ cs) (hus : '_' ∉ cs) :
    ∀ t : Str, likeMatch (cs ++ ['%']) t = true ↔ toLowerStr cs <+: toLowerStr t := by
  induction cs with
  | nil =>
    intro t
    have h : likeMatch ['%'] t = true := by
      rw [show (['%'] : Str) = '%' :: [] from rfl, likeMatch_percent_cons]
      exact ⟨[], List.nil_suffix, by simp [likeMatch]⟩
    simp [h, toLowerStr]
  | cons c cs ih =>
    intro t
    have hc1 : c ≠ '%' := fun h => hpc (h ▸ List.mem_cons_self c cs)
    have hc2 : c ≠ '_' := fun h => hus (h ▸ List.mem_cons_self c cs)
    have ih' := ih (fun h => hpc (List.mem_cons_of_mem c h))
      (fun h => hus (List.mem_cons_of_mem c h))
    cases t with
    | nil =>
      simp only [likeMatch, List.cons_append]
      rw [if_neg (by simpa using hc1)]
      simp [toLowerStr]
    | cons d ds =>
      simp only [likeMatch, List.cons_append]
      rw [if_neg (by simpa using hc1)]
      simp only [Bool.and_eq_true, Bool.or_eq_true, beq_iff_eq, List.append_eq]
      rw [ih' ds]
      simp only [toLowerStr, List.map_cons]
      rw [List.prefix_cons_iff]
      constructor
      · rintro ⟨hc | hc, hp⟩
        · exact absurd hc hc2
        · exact Or.inr ⟨cs.map Char.toLower, by rw [hc], hp⟩
      · rintro (h | ⟨tl, htl, hp⟩)
        · exact absurd h (by simp)
        · rcases List.cons.injEq _ _ _ _ ▸ htl with ⟨h1, h2⟩
          exact ⟨Or.inr h1, h2 ▸ hp⟩

/-- For a wildcard-free term, `field LIKE '%term%'` implies case-insensitive
substring containment. -/
theorem likeContains_implies_includes (field t0 : Str)
    (hpc : '%' ∉ t0) (hus : '_' ∉ t0)
    (h : likeContains field t0 = true) :
    jsIncludes (toLowerStr field) (toLowerStr t0) = true := by
  rw [likeContains, likeMatch_percent_cons] at h
  rcases h with ⟨s, hs, hm⟩
  rw [likeMatch_literal_percent t0 hpc hus s] at hm
  exact (jsIncludes_iff _ _).mpr ⟨toLowerStr s, List.IsSuffix.map _ hs, hm⟩

/-- Every result of `performSimpleSearch` comes from a table row matching
the first search term, carrying that row's score, matched field, snippet
and term count. -/
theorem performSimpleSearch_mem (rows : List ContactRow) (b : Bool)
    (query : Str) (limit : ℕ) (t0 : Str) (ts : List Str)
    (hsplit : (jsSplitWs query).filter (fun t => !t.isEmpty) = t0 :: ts)
    (r : KeywordSearchResult) (hr : r ∈ performSimpleSearch rows b query limit) :
    ∃ row ∈ rows, rowMatchesFirstTerm row t0 = true ∧
      r = { contactId := row.id,
            score := calculateKeywordScore row (t0 :: ts),
            matchedField := matchedFieldOf row t0,
            snippet := some (createSnippet row (t0 :: ts)),
            matchCount := (t0 :: ts).length } := by
  cases b with
  | true =>
    rw [performSimpleSearch, hsplit] at hr
    exact absurd (show r ∈ ([] : List KeywordSearchResult) from hr) (by simp)
  | false =>
    rw [performSimpleSearch, hsplit] at hr
    rcases List.mem_map.mp (by exact hr) with ⟨row, hrow, heq⟩
    have hrow' := (List.take_sublist limit _).subset hrow
    have hrow'' := (mem_jsStableSort _ _ row).mp hrow'
    rcases List.mem_filter.mp hrow'' with ⟨hmem, hpred⟩
    exact ⟨row, hmem, hpred, heq.symm⟩

/-- `matchedFieldOf` only ever yields `email`, `phone` or `name`. -/
theorem matchedFieldOf_cases (row : ContactRow) (t0 : Str) :
    matchedFieldOf row t0 = "email".toList ∨
    matchedFieldOf row t0 = "phone".toList ∨
    matchedFieldOf row t0 = "name".toList := by
  rw [matchedFieldOf]
  split_ifs <;> simp

/-! ## Claim C6 -/

/-- C6 counterexample.  First: name "ada" and email "ada@x" both match the
query "ada", yet `matchedField` is `email` (the email check runs first), not
`name` as the claimed priority requires.  Second: when only the tags match
("bob" tagged "ada"), `matchedField` is the default `name`, never `tags`. -/
theorem c6_counterexample :
    performSimpleSearch [⟨['i', '1'], "ada".toList, some "ada@x".toList, none, none⟩]
        false "ada".toList 10 =
      [⟨['i', '1'], 1, "email".toList, some "ada ada@x".toList, 1⟩] ∧
    jsIncludes (toLowerStr "ada".toList) (toLowerStr "ada".toList) = true ∧
    performSimpleSearch [⟨['i', '2'], "bob".toList, none, none, some "ada".toList⟩]
        false "ada".toList 10 =
      [⟨['i', '2'], 3/20, "name".toList, some "bob   ada".toList, 1⟩] ∧
    likeContains "bob".toList "ada".toList = false := by
  refine ⟨?_, by decide, ?_, by decide⟩
  · simp +decide [performSimpleSearch, calculateKeywordScore, scoreStep,
      createSnippet, matchedFieldOf, jsStableSort, insertStable, jsSplitWs, wsWordsAux, jsTrim]
  · simp +decide [performSimpleSearch, calculateKeywordScore, scoreStep,
      createSnippet, matchedFieldOf, jsStableSort, insertStable, jsSplitWs, wsWordsAux, jsTrim]
    norm_num

/-- C6 (amended): every keyword result's `matchedField` is computed from the
**first** term only as `matchedFieldOf`: `email` when the (truthy) email
contains it case-insensitively — even if the name also matched — else
`phone` when the (truthy) phone contains it case-sensitively, else the
default `name` (also when only the tags matched); `tags` is never
reported. -/
theorem c6_amended (rows : List ContactRow) (b : Bool) (query : Str)
    (limit : ℕ) (t0 : Str) (ts : List Str)
    (hsplit : (jsSplitWs query).filter (fun t => !t.isEmpty) = t0 :: ts)
    (r : KeywordSearchResult) (hr : r ∈ performSimpleSearch rows b query limit) :
    ∃ row ∈ rows, row.id = r.contactId ∧
      r.matchedField = matchedFieldOf row t0 ∧
      r.matchedField ≠ "tags".toList ∧
      ((jsTruthy row.email &&
          jsIncludes (toLowerStr (row.email.getD [])) (toLowerStr t0)) = true →
        r.matchedField = "email".toList) := by
  rcases performSimpleSearch_mem rows b query limit t0 ts hsplit r hr with
    ⟨row, hmem, _, heq⟩
  have hmf : r.matchedField = matchedFieldOf row t0 := by rw [heq]
  refine ⟨row, hmem, by rw [heq], hmf, ?_, ?_⟩
  · rw [hmf]
    rcases matchedFieldOf_cases row t0 with h | h | h <;> rw [h] <;> decide
  · intro hcond
    rw [hmf, matchedFieldOf, if_pos hcond]

/-- Witness for C6 (amended): contact "bob" tagged "ada" matches the query
"ada" through its tags only, and the reported field is `name`. -/
theorem c6_witness :
    ∃ row ∈ [(⟨['i', '2'], "bob".toList, none, none, some "ada".toList⟩ : ContactRow)],
      row.id = (⟨['i', '2'], 3/20, "name".toList, some "bob   ada".toList, 1⟩ :
        KeywordSearchResult).contactId ∧
      (⟨['i', '2'], 3/20, "name".toList, some "bob   ada".toList, 1⟩ :
        KeywordSearchResult).matchedField = matchedFieldOf row "ada".toList ∧
      (⟨['i', '2'], 3/20, "name".toList, some "bob   ada".toList, 1⟩ :
        KeywordSearchResult).matchedField ≠ "tags".toList ∧
      ((jsTruthy row.email &&
          jsIncludes (toLowerStr (row.email.getD []))
            (toLowerStr "ada".toList)) = true →
        (⟨['i', '2'], 3/20, "name".toList, some "bob   ada".toList, 1⟩ :
          KeywordSearchResult).matchedField = "email".toList) := by
  refine c6_amended [⟨['i', '2'], "bob".toList, none, none, some "ada".toList⟩]
    false "ada".toList 10 "ada".toList [] (by decide) _ ?_
  simp +decide [performSimpleSearch, calculateKeywordScore, scoreStep,
    createSnippet, matchedFieldOf, jsStableSort, insertStable, jsSplitWs, wsWordsAux, jsTrim]
  norm_num

/-! ## Claim C10 -/

/-- C10 counterexample: the first term is interpolated into the SQL `LIKE`
pattern unescaped, so a first term `"%"` matches every contact: the query
"% zzz" returns "bob" although no field contains `"%"` (or `"zzz"`) as a
substring. -/
theorem c10_counterexample :
    KeywordSearchService.search [⟨['i', '3'], "bob".toList, none, none, none⟩]
        false "% zzz".toList 10 =
      [⟨['i', '3'], 0, "name".toList, some "bob".toList, 2⟩] ∧
    jsIncludes (toLowerStr "bob".toList) (toLowerStr "%".toList) = false ∧
    jsIncludes (toLowerStr "bob".toList) (toLowerStr "zzz".toList) = false := by
  refine ⟨?_, by decide, by decide⟩
  simp +decide [KeywordSearchService.search, performSimpleSearch,
    calculateKeywordScore, scoreStep, createSnippet, matchedFieldOf,
    jsStableSort, insertStable, jsTrim, jsSplitWs, wsWordsAux, jsTrim]

/-- C10 (amended): every result of `KeywordSearchService.search` comes from
a row whose name, email, phone or tags `LIKE`-matches `'%' ++ firstTerm ++
'%'`; when the first term contains no `LIKE` wildcard (`%`/`_`), this means
one of those four fields contains the first term as a case-insensitive
substring — so a contact matching only the second or later terms is never
returned. -/
theorem c10_amended (rows : List ContactRow) (b : Bool) (query : Str)
    (limit : ℕ) (t0 : Str) (ts : List Str)
    (hsplit : (jsSplitWs query).filter (fun t => !t.isEmpty) = t0 :: ts)
    (r : KeywordSearchResult)
    (hr : r ∈ KeywordSearchService.search rows b query limit) :
    ∃ row ∈ rows, row.id = r.contactId ∧ rowMatchesFirstTerm row t0 = true ∧
      ('%' ∉ t0 → '_' ∉ t0 →
        jsIncludes (toLowerStr row.name) (toLowerStr t0) = true ∨
        (∃ e, row.email = some e ∧
          jsIncludes (toLowerStr e) (toLowerStr t0) = true) ∨
        (∃ p, row.phone = some p ∧
          jsIncludes (toLowerStr p) (toLowerStr t0) = true) ∨
        (∃ tg, row.tags = some tg ∧
          jsIncludes (toLowerStr tg) (toLowerStr t0) = true)) := by
  have hr' : r ∈ performSimpleSearch rows b query limit := by
    rw [KeywordSearchService.search] at hr
    by_cases htrim : (jsTrim query).isEmpty = true
    · rw [if_pos htrim] at hr
      exact absurd hr (by simp)
    · rwa [if_neg htrim] at hr
  rcases performSimpleSearch_mem rows b query limit t0 ts hsplit r hr' with
    ⟨row, hmem, hpred, heq⟩
  refine ⟨row, hmem, by rw [heq], hpred, ?_⟩
  intro hp hu
  rw [rowMatchesFirstTerm] at hpred
  simp only [Bool.or_eq_true] at hpred
  rcases hpred with ((hn | he) | hph) | ht
  · exact Or.inl (likeContains_implies_includes _ _ hp hu hn)
  · cases hemail : row.email with
    | none => rw [hemail] at he; simp [optLikeContains] at he
    | some e =>
      rw [hemail] at he
      simp only [optLikeContains] at he
      exact Or.inr (Or.inl ⟨e, rfl, likeContains_implies_includes _ _ hp hu he⟩)
  · cases hphone : row.phone with
    | none => rw [hphone] at hph; simp [optLikeContains] at hph
    | some p =>
      rw [hphone] at hph
      simp only [optLikeContains] at hph
      exact Or.inr (Or.inr (Or.inl
        ⟨p, rfl, likeContains_implies_includes _ _ hp hu hph⟩))
  · cases htags : row.tags with
    | none => rw [htags] at ht; simp [optLikeContains] at ht
    | some tg =>
      rw [htags] at ht
      simp only [optLikeContains] at ht
      exact Or.inr (Or.inr (Or.inr
        ⟨tg, rfl, likeContains_implies_includes _ _ hp hu ht⟩))

/-- Witness for C10 (amended): the wildcard-free query "aro" returns
"Carol", whose name contains "aro" as a substring. -/
theorem c10_witness :
    ∃ row ∈ [(⟨['i', '4'], "Carol".toList, none, none, none⟩ : ContactRow)],
      row.id = (⟨['i', '4'], 19/20, "name".toList, some "Carol".toList, 1⟩ :
        KeywordSearchResult).contactId ∧
      rowMatchesFirstTerm row "aro".toList = true ∧
      ('%' ∉ "aro".toList → '_' ∉ "aro".toList →
        jsIncludes (toLowerStr row.name) (toLowerStr "aro".toList) = true ∨
        (∃ e, row.email = some e ∧
          jsIncludes (toLowerStr e) (toLowerStr "aro".toList) = true) ∨
        (∃ p, row.phone = some p ∧
          jsIncludes (toLowerStr p) (toLowerStr "aro".toList) = true) ∨
        (∃ tg, row.tags = some tg ∧
          jsIncludes (toLowerStr tg) (toLowerStr "aro".toList) = true)) := by
  refine c10_amended [⟨['i', '4'], "Carol".toList, none, none, none⟩]
    false "aro".toList 10 "aro".toList [] (by decide) _ ?_
  simp +decide [KeywordSearchService.search, performSimpleSearch,
    calculateKeywordScore, scoreStep, createSnippet, matchedFieldOf,
    jsStableSort, insertStable, jsTrim, jsSplitWs, wsWordsAux, jsTrim]
  norm_num

/-! ## Claim C1 -/

/-- C1: `search` never raises — the explicit try/catch semantics `searchE`
always returns `.ok` of what the total `search` returns; and for a
non-blank query, when the fusion pipeline throws, `search` returns exactly
the keyword fallback (in which every contact carries the fixed placeholder
score 0.5), and when the fallback throws too it returns `[]`. -/
theorem c1_search_never_throws (env : SearchEnv) (query : Str) :
    HybridSearchService.searchE env query =
      Except.ok (HybridSearchService.search env query) ∧
    ((jsTrim query).isEmpty = false →
      ∀ e, searchMainE env query = .error e →
        (∀ l, searchFallbackE env query = .ok l →
          HybridSearchService.search env query = l ∧ ∀ r ∈ l, r.score = 1/2) ∧
        (∀ e', searchFallbackE env query = .error e' →
          HybridSearchService.search env query = [])) := by
  constructor
  · rw [HybridSearchService.searchE, HybridSearchService.search]
    by_cases ht : (jsTrim query).isEmpty
    · rw [if_pos ht, if_pos ht]
    · rw [if_neg ht, if_neg ht]
      cases searchMainE env query with
      | ok rs => rfl
      | error e =>
        cases searchFallbackE env query with
        | ok rs => rfl
        | error e' => rfl
  · intro ht e hm
    have htn : ¬ ((jsTrim query).isEmpty = true) := by simp [ht]
    constructor
    · intro l hf
      constructor
      · rw [HybridSearchService.search, if_neg htn, hm, hf]
      · intro r hr
        rw [searchFallbackE] at hf
        cases hx : exceptMapM env.getContact
            ((performKeywordSearch env query).map (fun k => k.contactId)) with
        | error e2 =>
          rw [hx] at hf
          exact absurd hf (by simp)
        | ok cs =>
          rw [hx] at hf
          have hl := (Except.ok.injEq _ _).mp hf
          rw [← hl] at hr
          rcases List.mem_map.mp hr with ⟨c, _, hc⟩
          rw [← hc]
    · intro e' hf
      rw [HybridSearchService.search, if_neg htn, hm, hf]

/-- Collaborator behaviour for the C1 witness: one semantically indexed
contact `s1` whose directory lookup throws, one keyword contact `k1` whose
lookup succeeds — the fusion pipeline throws during enrichment, the
fallback succeeds. -/
def c1Env : SearchEnv :=
  { cfg := DEFAULT_SEARCH_CONFIG
    sqrt := fun x => x
    genEmbedding := fun _ => .ok [1]
    vectorStore := some ⟨[⟨"s1".toList, some [1]⟩], some 1⟩
    contactRows := [⟨"k1".toList, "Bob".toList, none, none, none⟩]
    sqlFails := false
    getContact := fun i =>
      if i = "k1".toList then .ok (some ⟨"k1".toList, "Bob".toList⟩)
      else .error () }

/-- Witness for C1: in `c1Env` the pipeline throws (enriching the
semantic-only contact `s1` fails) and `search` returns the keyword fallback
`[k1]` with the placeholder score 0.5. -/
theorem c1_witness :
    HybridSearchService.search c1Env "Bob".toList =
      [{ contactId := "k1".toList, name := "Bob".toList, score := 1/2,
         matchedField := none, snippet := none }] ∧
    HybridSearchService.searchE c1Env "Bob".toList =
      Except.ok (HybridSearchService.search c1Env "Bob".toList) := by
  have hmain : searchMainE c1Env "Bob".toList = .error () := by
    norm_num +decide [searchMainE, c1Env, performSemanticSearch,
      performKeywordSearch, KeywordSearchService.search, performSimpleSearch,
      VectorStore.search, similarityList, normalizeVector, sumSquares,
      cosineSimilarity, jsStableSort, insertStable, jsTrim, jsSplitWs,
      wsWordsAux, calculateKeywordScore, scoreStep, createSnippet,
      matchedFieldOf, mergeAndRankResults, semMergeEntry, keyMergedValue,
      keywordContribution, keyMergeStep, mapSet, mapGet, enrichResultsE,
      exceptMapM, DEFAULT_SEARCH_CONFIG]
  have hfall : searchFallbackE c1Env "Bob".toList =
      .ok [{ contactId := "k1".toList, name := "Bob".toList, score := 1/2,
             matchedField := none, snippet := none }] := by
    norm_num +decide [searchFallbackE, c1Env, performKeywordSearch,
      KeywordSearchService.search, performSimpleSearch, jsStableSort,
      insertStable, jsTrim, jsSplitWs, wsWordsAux, calculateKeywordScore,
      scoreStep, createSnippet, matchedFieldOf, exceptMapM,
      DEFAULT_SEARCH_CONFIG, List.filterMap_cons, id_eq]
  have h := c1_search_never_throws c1Env "Bob".toList
  refine ⟨((h.2 (by decide) () hmain).1 _ hfall).1, h.1⟩

/-! ## Claim C7 -/

/-- The contacts-table row of scenario A: `{id: "c1", name: "Ada Lovelace",
tags: ["mathematician"]}` (tags stored as JSON text). -/
def adaRow : ContactRow :=
  ⟨"c1".toList, "Ada Lovelace".toList, none, none,
    some "[\"mathematician\"]".toList⟩

/-- Scenario A environment: the single contact `adaRow`, its tag document
indexed; the embedding model maps every text to the unit vector `[1]`, so
the tag document has semantic similarity exactly 1 to the query. -/
def adaEnv : SearchEnv :=
  { cfg := DEFAULT_SEARCH_CONFIG
    sqrt := fun x => x
    genEmbedding := fun _ => .ok [1]
    vectorStore := some ⟨[⟨"c1".toList, some [1]⟩], some 1⟩
    contactRows := [adaRow]
    sqlFails := false
    getContact := fun i =>
      if i = "c1".toList then .ok (some ⟨"c1".toList, "Ada Lovelace".toList⟩)
      else .ok none }

/-- C7 counterexample: in scenario A, `search("Ada")` returns `c1` with
score 0.7 — the keyword score of "Ada" against "Ada Lovelace" is 0.35 (not
1.0, since the exact-name short-circuit requires full equality), so the
semantic contribution `1 × 0.7` wins the max — and with **no**
`matchedField` (the merge step never copies the keyword field onto an
existing semantic entry), contradicting the claimed `score = 1.0,
matchedField = "name"`. -/
theorem c7_counterexample :
    HybridSearchService.search adaEnv "Ada".toList =
      [{ contactId := "c1".toList, name := "Ada Lovelace".toList,
         score := 7/10, matchedField := none,
         snippet := some "Ada Lovelace   [\"mathematician\"]".toList }] ∧
    (7/10 : ℚ) ≠ 1 ∧
    (none : Option Str) ≠ some "name".toList := by
  refine ⟨?_, by norm_num, by simp⟩
  norm_num +decide [HybridSearchService.search, searchMainE, adaEnv, adaRow,
    performSemanticSearch, performKeywordSearch, KeywordSearchService.search,
    performSimpleSearch, VectorStore.search, similarityList, normalizeVector,
    sumSquares, cosineSimilarity, jsStableSort, insertStable, jsTrim,
    jsSplitWs, wsWordsAux, calculateKeywordScore, scoreStep, createSnippet,
    matchedFieldOf, mergeAndRankResults, semMergeEntry, keyMergedValue,
    keywordContribution, keyMergeStep, mapSet, mapGet, enrichResultsE,
    exceptMapM, DEFAULT_SEARCH_CONFIG]

/-- C7 (amended): in scenario A (with unit embeddings), `search("Ada")`
returns `c1` whose score is `max(semanticSimilarity × semanticWeight,
keywordScore × keywordWeight)` — here `max(1 × 0.7, 0.35 × 0.6) = 0.7` —
whose `matchedField` is absent, and whose snippet is the keyword snippet
(the merge copies the snippet, but not the field, onto the semantic
entry). -/
theorem c7_amended :
    HybridSearchService.search adaEnv "Ada".toList =
      [{ contactId := "c1".toList, name := "Ada Lovelace".toList,
         score := max (1 * DEFAULT_SEARCH_CONFIG.semanticWeight)
           (calculateKeywordScore adaRow ["Ada".toList] *
             DEFAULT_SEARCH_CONFIG.keywordWeight),
         matchedField := none,
         snippet := some (createSnippet adaRow ["Ada".toList]) }] := by
  norm_num +decide [HybridSearchService.search, searchMainE, adaEnv, adaRow,
    performSemanticSearch, performKeywordSearch, KeywordSearchService.search,
    performSimpleSearch, VectorStore.search, similarityList, normalizeVector,
    sumSquares, cosineSimilarity, jsStableSort, insertStable, jsTrim,
    jsSplitWs, wsWordsAux, calculateKeywordScore, scoreStep, createSnippet,
    matchedFieldOf, mergeAndRankResults, semMergeEntry, keyMergedValue,
    keywordContribution, keyMergeStep, mapSet, mapGet, enrichResultsE,
    exceptMapM, DEFAULT_SEARCH_CONFIG]

/-! ## Claim C5 -/

theorem exceptMapM_length (f : α → Except Unit β) :
    ∀ (xs : List α) (ys : List β), exceptMapM f xs = .ok ys →
      ys.length = xs.length := by
  intro xs
  induction xs with
  | nil =>
    intro ys h
    simp only [exceptMapM] at h
    rw [← (Except.ok.injEq _ _).mp h]
    rfl
  | cons a as ih =>
    intro ys h
    simp only [exceptMapM] at h
    cases hfa : f a with
    | error e => rw [hfa] at h; exact absurd h (by simp)
    | ok b =>
      rw [hfa] at h
      cases hrec : exceptMapM f as with
      | error e => rw [hrec] at h; exact absurd h (by simp)
      | ok bs =>
        rw [hrec] at h
        rw [← (Except.ok.injEq _ _).mp h]
        simp [ih bs hrec]

/-- C5 (amended): for a non-blank query, every entry `searchTagsOnly`
returns is a semantic result scored `semanticScore × semanticWeight` — with
**no** threshold filtering: when the semantic result list fits within
`maxResults`, every semantic result (however low or negative its score)
appears in the output. -/
theorem c5_amended (env : SearchEnv) (query : Str)
    (hq : (jsTrim query).isEmpty = false) (l : List SearchResult)
    (hok : searchTagsOnlyE env query = .ok l) :
    (∀ e ∈ l, ∃ s ∈ performSemanticSearch env query,
      e.contactId = s.contactId ∧ e.score = s.score * env.cfg.semanticWeight) ∧
    ((performSemanticSearch env query).length ≤ env.cfg.maxResults →
      ∀ s ∈ performSemanticSearch env query, ∃ e ∈ l,
        e.contactId = s.contactId ∧ e.score = s.score * env.cfg.semanticWeight) := by
  rw [searchTagsOnlyE, if_neg (by simp [hq])] at hok
  cases hx : exceptMapM env.getContact
      ((performSemanticSearch env query).map (fun r => r.contactId)) with
  | error e =>
    rw [hx] at hok
    exact absurd hok (by simp)
  | ok contacts =>
    rw [hx] at hok
    have hl := (Except.ok.injEq _ _).mp hok
    have hclen : contacts.length = (performSemanticSearch env query).length := by
      rw [exceptMapM_length env.getContact _ contacts hx, List.length_map]
    constructor
    · intro e he
      rw [← hl] at he
      have he' := (List.take_sublist _ _).subset he
      have he'' := (mem_jsStableSort _ _ e).mp he'
      rcases List.mem_map.mp he'' with ⟨rc, hrc, hrceq⟩
      refine ⟨rc.1, (List.of_mem_zip hrc).1, ?_, ?_⟩
      · rw [← hrceq]
      · rw [← hrceq]
    · intro hlen s hs
      have hzlen : ((performSemanticSearch env query).zip contacts).length =
          (performSemanticSearch env query).length := by
        rw [List.length_zip, hclen, min_self]
      have hsortlen : (jsStableSort (fun a b => decide (b.score ≤ a.score))
          (((performSemanticSearch env query).zip contacts).map (fun rc =>
            { contactId := rc.1.contactId,
              name := ((rc.2.map Contact.name).getD []),
              score := rc.1.score * env.cfg.semanticWeight,
              matchedField := none, snippet := none : SearchResult }))).length =
          (performSemanticSearch env query).length := by
        rw [(jsStableSort_perm _ _).length_eq, List.length_map, hzlen]
      rcases List.mem_iff_getElem.mp hs with ⟨i, hi, hgi⟩
      have hiz : i < ((performSemanticSearch env query).zip contacts).length := by
        rw [hzlen]; exact hi
      have him : i < (((performSemanticSearch env query).zip contacts).map
          (fun rc =>
            { contactId := rc.1.contactId,
              name := ((rc.2.map Contact.name).getD []),
              score := rc.1.score * env.cfg.semanticWeight,
              matchedField := none, snippet := none : SearchResult })).length := by
        rw [List.length_map]; exact hiz
      refine ⟨(((performSemanticSearch env query).zip contacts).map (fun rc =>
        { contactId := rc.1.contactId,
          name := ((rc.2.map Contact.name).getD []),
          score := rc.1.score * env.cfg.semanticWeight,
          matchedField := none, snippet := none : SearchResult }))[i], ?_, ?_, ?_⟩
      · rw [← hl, List.take_of_length_le (by rw [hsortlen]; exact hlen)]
        rw [mem_jsStableSort]
        exact List.getElem_mem him
      · rw [List.getElem_map, List.getElem_zip]
        simp only []
        rw [hgi]
      · rw [List.getElem_map, List.getElem_zip]
        simp only []
        rw [hgi]

/-- Environment for the C5 counterexample/witness: one indexed tag document
whose stored embedding is `[-1]`, so its semantic similarity to the unit
query embedding is −1. -/
def c5Env : SearchEnv :=
  { cfg := DEFAULT_SEARCH_CONFIG
    sqrt := fun x => x
    genEmbedding := fun _ => .ok [1]
    vectorStore := some ⟨[⟨"c1".toList, some [-1]⟩], some 1⟩
    contactRows := []
    sqlFails := false
    getContact := fun _ => .ok (some ⟨"c1".toList, "Ada".toList⟩) }

/-- C5 counterexample: `searchTagsOnly` returns an entry whose semantic
score is −1 (weighted: −0.7), i.e. an entry strictly below zero and hence
below any non-negative `semanticThreshold` — no threshold filtering exists
in the code (`SearchConfig` has no such field). -/
theorem c5_counterexample :
    searchTagsOnlyE c5Env ['q'] =
      .ok [{ contactId := "c1".toList, name := "Ada".toList,
             score := -(7/10), matchedField := none, snippet := none }] ∧
    (-(7/10) : ℚ) < 0 := by
  refine ⟨?_, by norm_num⟩
  norm_num +decide [searchTagsOnlyE, c5Env, performSemanticSearch,
    VectorStore.search, similarityList, normalizeVector, sumSquares,
    cosineSimilarity, jsStableSort, insertStable, jsTrim, exceptMapM,
    DEFAULT_SEARCH_CONFIG]

/-- Witness for C5 (amended) in `c5Env`: the returned entry with weighted
score −0.7 is accounted for by the semantic result with score −1. -/
theorem c5_witness :
    ∃ s ∈ performSemanticSearch c5Env ['q'],
      ({ contactId := "c1".toList, name := "Ada".toList, score := -(7/10),
         matchedField := none, snippet := none } : SearchResult).contactId =
        s.contactId ∧
      ({ contactId := "c1".toList, name := "Ada".toList, score := -(7/10),
         matchedField := none, snippet := none } : SearchResult).score =
        s.score * c5Env.cfg.semanticWeight := by
  refine (c5_amended c5Env ['q'] (by decide) _ ?_).1 _ (List.mem_singleton.mpr rfl)
  norm_num +decide [searchTagsOnlyE, c5Env, performSemanticSearch,
    VectorStore.search, similarityList, normalizeVector, sumSquares,
    cosineSimilarity, jsStableSort, insertStable, jsTrim, exceptMapM,
    DEFAULT_SEARCH_CONFIG]
